import Mathlib

/-
Verification development for the ai-business-automation-designer repository.

The definitions below are a shallow embedding of the TypeScript sources:
the SDK type declarations (src/packages/sdk/src/types/index.ts), the
flow-builder UI store (src/apps/frontend/src/stores/flowStore.ts), the
simulation / testing panels and the node registry (src/unnamed/part_001,
src/unnamed/part_002).  The execution-engine components themselves (run
state machine, variable store, retry policy, condition executor,
persistence contract) are not part of the source tree; where a claim is
about them, the definition is modelled from the specification text and
marked as such in its doc comment.
-/

/-- The `RunStatus` union type of src/packages/sdk/src/types/index.ts, line 27:
`'pending' | 'running' | 'completed' | 'failed' | 'cancelled'`. -/
inductive RunStatus where
  | pending
  | running
  | completed
  | failed
  | cancelled
deriving DecidableEq, Repr

/-- The string literals admitted by the `RunStatus` union type and by the
`z.enum` list of `WorkflowRunSchema` (types/index.ts line 120). -/
def runStatusStrings : List String :=
  ["pending", "running", "completed", "failed", "cancelled"]

/-- Validation of the `status` field performed by `WorkflowRunSchema`
(types/index.ts lines 116-126): a string passes iff it is one of the
enumerated literals. -/
def workflowRunStatusValid (s : String) : Bool :=
  runStatusStrings.contains s

/-- The eight run statuses named by the specification (section 3, Run):
pending, running, waiting, completed, failed, cancelled, compensating,
dead_lettered.  Stated from the spec's words for comparison with the
status set the code admits. -/
def specRunStatusStrings : List String :=
  ["pending", "running", "waiting", "completed", "failed", "cancelled",
   "compensating", "dead_lettered"]

/-- The `StepType` union type of src/packages/sdk/src/types/index.ts, line 42:
`'trigger' | 'action' | 'branch' | 'loop' | 'parallel' | 'approval' |
'delay' | 'http' | 'datamap'`. -/
def stepTypeStrings : List String :=
  ["trigger", "action", "branch", "loop", "parallel", "approval", "delay",
   "http", "datamap"]

/-- The keys of the `nodeTypes` registry (src/unnamed/part_002, lines
1184-1192): connector, condition, transform, webhook, delay, start, end. -/
def nodeTypeKeys : List String :=
  ["connector", "condition", "transform", "webhook", "delay", "start", "end"]

/-- The `type` fields of all entries of `nodeCategories`
(src/unnamed/part_002, lines 1194-1210), in declaration order. -/
def nodeCategoryTypes : List String :=
  ["start", "webhook", "connector", "transform", "condition", "delay", "end"]

/-- The nine step kinds named by the specification (section 3, Step):
start, webhook, connector, transform, condition, delay, parallel,
approval, end.  Stated from the spec's words for comparison with the
kind sets the code declares. -/
def specStepKinds : List String :=
  ["start", "webhook", "connector", "transform", "condition", "delay",
   "parallel", "approval", "end"]

/-- The `iconMap` of `CustomNode` (src/unnamed/part_002, lines 1098-1106),
mapping a step kind to the icon component it renders. -/
def iconMap : List (String × String) :=
  [("start", "Play"), ("webhook", "Webhook"), ("connector", "Link"),
   ("transform", "Settings"), ("condition", "GitBranch"), ("delay", "Clock"),
   ("end", "Square")]

/-- Icon dispatch of `CustomNode` (src/unnamed/part_002, line 1119):
`iconMap[data.type] || Settings` — an unknown kind falls back to the
`Settings` icon instead of being rejected. -/
def customNodeIcon (t : String) : String :=
  (iconMap.lookup t).getD "Settings"

/-- Field names of the `SimulationStep` interface
(src/unnamed/part_001, lines 15-27). -/
def simulationStepFields : List String :=
  ["step_id", "step_type", "name", "status", "start_time", "end_time",
   "duration_ms", "inputs", "outputs", "error", "mock_data_used"]

/-- Field names of the `SimulationResult` interface
(src/unnamed/part_001, lines 29-43). -/
def simulationResultFields : List String :=
  ["simulation_id", "workflow_id", "workflow_name", "status", "start_time",
   "end_time", "duration_ms", "steps", "variables", "mock_data_config",
   "validation_errors", "execution_path", "performance_metrics"]

/-- Field names of the `WorkflowRun` interface — the live run record of the
public SDK (src/packages/sdk/src/types/index.ts, lines 15-25). -/
def workflowRunFields : List String :=
  ["id", "workflow_id", "version", "status", "input_data", "output_data",
   "started_at", "completed_at", "error_message"]

/-- Two field lists describe the same record shape when each field of one
occurs in the other (field-for-field, order irrelevant). -/
def sameFieldSet (xs ys : List String) : Bool :=
  xs.all (fun f => ys.contains f) && ys.all (fun f => xs.contains f)

/-- The parity predicate of the spec's words (section 6): the simulated
record and the live record are structurally identical field-for-field,
differing only in a `mock_data_used` marker. -/
def fieldParityUpToMock (sim live : List String) : Bool :=
  sameFieldSet (sim.filter (fun f => f != "mock_data_used")) live

/-- Claim C1, counterexample: the public run-status type does not admit all
eight spec statuses — `waiting`, `compensating` and `dead_lettered` are
rejected by the `WorkflowRunSchema` status validation even though the spec
names them. -/
theorem runStatus_missing_spec_statuses :
    "waiting" ∈ specRunStatusStrings ∧ workflowRunStatusValid "waiting" = false ∧
    "compensating" ∈ specRunStatusStrings ∧ workflowRunStatusValid "compensating" = false ∧
    "dead_lettered" ∈ specRunStatusStrings ∧ workflowRunStatusValid "dead_lettered" = false := by
  decide

/-- Claim C1, amended: the public run-status type admits exactly the five
values pending, running, completed, failed, cancelled; a string passes the
`WorkflowRunSchema` status validation iff it is one of those five, every
admitted status is among the spec's eight, and the suspension status
`waiting` and the post-failure statuses `compensating` and `dead_lettered`
are not representable. -/
theorem runStatus_exactly_five :
    (∀ s : String, workflowRunStatusValid s = true ↔ s ∈ runStatusStrings) ∧
    runStatusStrings.length = 5 ∧
    runStatusStrings.all (fun s => specRunStatusStrings.contains s) = true ∧
    workflowRunStatusValid "waiting" = false ∧
    workflowRunStatusValid "compensating" = false ∧
    workflowRunStatusValid "dead_lettered" = false := by
  refine ⟨fun s => ?_, by decide, by decide, by decide, by decide, by decide⟩
  simp [workflowRunStatusValid, List.elem_iff]

/-- Claim C2, counterexample: the live run record (`WorkflowRun`) and the
simulated run record (`SimulationResult`) are not structurally identical
up to the `mock_data_used` marker — `workflow_name` is a simulation-only
field distinct from the marker, and the two records share only two field
names. -/
theorem simulation_live_records_differ :
    fieldParityUpToMock simulationResultFields workflowRunFields = false ∧
    fieldParityUpToMock simulationStepFields workflowRunFields = false ∧
    "workflow_name" ∈ simulationResultFields ∧
    "workflow_name" ∉ workflowRunFields ∧
    "workflow_name" ≠ "mock_data_used" := by
  decide

/-- Claim C2, amended: each simulated step record carries a
`mock_data_used` marker absent from the live record, but the record shapes
are otherwise not field-for-field identical: the run-level records share
only the `workflow_id` and `status` fields — for instance
`execution_path` exists only in the simulation record and `input_data`
only in the live `WorkflowRun` record. -/
theorem simulation_live_records_amended :
    "mock_data_used" ∈ simulationStepFields ∧
    "mock_data_used" ∉ workflowRunFields ∧
    simulationResultFields.filter (fun f => workflowRunFields.contains f) =
      ["workflow_id", "status"] ∧
    "execution_path" ∈ simulationResultFields ∧
    "execution_path" ∉ workflowRunFields ∧
    "input_data" ∈ workflowRunFields ∧
    "input_data" ∉ simulationResultFields := by
  decide

/-- Claim C8, counterexample: neither step-kind set in the code equals the
spec's nine kinds — `parallel` is absent from the UI node registry, `start`
is absent from the SDK `StepType`, and a kind outside the set is still
accepted by `CustomNode` dispatch (it falls back to the Settings icon
rather than being rejected). -/
theorem step_kinds_not_closed_nine :
    "parallel" ∈ specStepKinds ∧ "parallel" ∉ nodeTypeKeys ∧
    "start" ∈ specStepKinds ∧ "start" ∉ stepTypeStrings ∧
    sameFieldSet nodeTypeKeys specStepKinds = false ∧
    sameFieldSet stepTypeStrings specStepKinds = false ∧
    customNodeIcon "bogus_kind" = "Settings" := by
  decide

/-- Claim C8, amended: the UI node registry declares exactly the seven
kinds connector, condition, transform, webhook, delay, start, end (no
parallel, no approval) and agrees with the palette categories; the SDK
`StepType` is the different nine-element set trigger, action, branch,
loop, parallel, approval, delay, http, datamap; and node dispatch is not
exhaustive over a closed set — unknown kinds take the Settings default
while declared kinds take their declared icon. -/
theorem step_kinds_amended :
    sameFieldSet nodeTypeKeys nodeCategoryTypes = true ∧
    nodeTypeKeys.length = 7 ∧
    "parallel" ∉ nodeTypeKeys ∧ "approval" ∉ nodeTypeKeys ∧
    stepTypeStrings.length = 9 ∧
    sameFieldSet stepTypeStrings specStepKinds = false ∧
    customNodeIcon "condition" = "GitBranch" ∧
    customNodeIcon "parallel" = "Settings" := by
  decide

/-- The three right-panel identifiers of the flow store
(src/apps/frontend/src/stores/flowStore.ts, line 45). -/
inductive RightPanel where
  | node
  | simulation
  | testing
deriving DecidableEq, Repr

/-- The `WorkflowData` interface of flowStore.ts (lines 4-12); the graph
payload is carried opaquely, only the fields themselves matter here.  The
source names the sixth field `variables`; that word is reserved in Lean,
so it is rendered `variableBindings`. -/
structure WorkflowData where
  id : String
  name : String
  description : String
  nodes : List String
  edges : List String
  variableBindings : List (String × String)
  metadata : List (String × String)
deriving DecidableEq, Repr

/-- The state of the zustand flow store (flowStore.ts, lines 14-47): one
field per store property. -/
structure FlowStore where
  isDesignMode : Bool
  currentWorkflow : Option WorkflowData
  selectedNode : Option String
  isDesigning : Bool
  designGoal : String
  isExecuting : Bool
  executionId : Option String
  sidebarOpen : Bool
  nodePanelOpen : Bool
  rightPanel : RightPanel
deriving DecidableEq, Repr

/-- The initial store state created by `useFlowStore`
(flowStore.ts, lines 49-82). -/
def flowStoreInit : FlowStore where
  isDesignMode := true
  currentWorkflow := none
  selectedNode := none
  isDesigning := false
  designGoal := ""
  isExecuting := false
  executionId := none
  sidebarOpen := true
  nodePanelOpen := false
  rightPanel := RightPanel.node

/-- The operations exposed by the flow store, one constructor per action
of flowStore.ts (lines 49-82). -/
inductive FlowOp where
  | toggleDesignMode
  | setCurrentWorkflow (w : Option WorkflowData)
  | setSelectedNode (n : Option String)
  | setDesignGoal (g : String)
  | startAIDesign
  | stopAIDesign
  | startExecution (executionId : String)
  | stopExecution
  | toggleSidebar
  | toggleNodePanel
  | setRightPanel (p : RightPanel)
deriving DecidableEq, Repr

/-- Effect of each store action on the state, each case mirroring the
corresponding `set` call in flowStore.ts (lines 49-82); in particular
`startExecution` sets `isExecuting := true` and `executionId` together
(line 72) and `stopExecution` resets both together (line 73). -/
def applyFlowOp : FlowOp → FlowStore → FlowStore
  | FlowOp.toggleDesignMode, s => { s with isDesignMode := !s.isDesignMode }
  | FlowOp.setCurrentWorkflow w, s => { s with currentWorkflow := w }
  | FlowOp.setSelectedNode n, s => { s with selectedNode := n }
  | FlowOp.setDesignGoal g, s => { s with designGoal := g }
  | FlowOp.startAIDesign, s => { s with isDesigning := true }
  | FlowOp.stopAIDesign, s => { s with isDesigning := false }
  | FlowOp.startExecution i, s => { s with isExecuting := true, executionId := some i }
  | FlowOp.stopExecution, s => { s with isExecuting := false, executionId := none }
  | FlowOp.toggleSidebar, s => { s with sidebarOpen := !s.sidebarOpen }
  | FlowOp.toggleNodePanel, s => { s with nodePanelOpen := !s.nodePanelOpen }
  | FlowOp.setRightPanel p, s => { s with rightPanel := p }

/-- The execution-state invariant of the flow store: `isExecuting` is true
exactly when an `executionId` is present. -/
def execInvariant (s : FlowStore) : Prop :=
  s.isExecuting = s.executionId.isSome

instance (s : FlowStore) : Decidable (execInvariant s) := by
  unfold execInvariant
  infer_instance

/-- Claim C10: the invariant (isExecuting iff executionId present) holds in
the initial flow-store state and is preserved by every store operation;
moreover every operation other than `startExecution` and `stopExecution`
leaves both execution fields untouched. -/
theorem flowStore_execution_invariant :
    execInvariant flowStoreInit ∧
    (∀ (op : FlowOp) (s : FlowStore), execInvariant s → execInvariant (applyFlowOp op s)) ∧
    (∀ (op : FlowOp) (s : FlowStore),
      (∀ i, op ≠ FlowOp.startExecution i) → op ≠ FlowOp.stopExecution →
        (applyFlowOp op s).isExecuting = s.isExecuting ∧
        (applyFlowOp op s).executionId = s.executionId) := by
  refine ⟨by decide, fun op s h => ?_, fun op s h1 h2 => ?_⟩
  · cases op <;> simp_all [applyFlowOp, execInvariant]
  · cases op <;> simp_all [applyFlowOp]

/-- Witness for C10: the invariant propagates through a concrete operation
sequence (startExecution then an unrelated toggle) from the initial state. -/
theorem flowStore_execution_invariant_witness :
    execInvariant (applyFlowOp (FlowOp.startExecution "run-42") flowStoreInit) ∧
    (applyFlowOp FlowOp.toggleSidebar flowStoreInit).executionId = flowStoreInit.executionId :=
  ⟨flowStore_execution_invariant.2.1 (FlowOp.startExecution "run-42") flowStoreInit
      flowStore_execution_invariant.1,
   (flowStore_execution_invariant.2.2 FlowOp.toggleSidebar flowStoreInit
      (fun i => by simp) (by simp)).2⟩

/-- A JavaScript runtime value as the strict-equality operator sees it:
a primitive is identified by its value, an object or array by its heap
reference; the object keeps its own (shallow) contents so that two
structurally equal objects with distinct references can be told apart. -/
inductive JSValue where
  | prim (v : String)
  | obj (ref : Nat) (fields : List (String × String))
deriving DecidableEq, Repr

/-- JavaScript strict equality: primitives compare by value, objects by
reference only — the contents of the objects are never inspected. -/
def strictEq : JSValue → JSValue → Bool
  | JSValue.prim a, JSValue.prim b => a == b
  | JSValue.obj r _, JSValue.obj r2 _ => r == r2
  | _, _ => false

/-- Property access `variables[key]` of the simulation result: an absent
key yields the `undefined` primitive, as in JavaScript. -/
def lookupVar (vars : List (String × JSValue)) (k : String) : JSValue :=
  match vars.lookup k with
  | some v => v
  | none => JSValue.prim "undefined"

/-- The `TestCase` interface of the testing panel
(src/unnamed/part_002, lines 15-24). -/
structure TestCase where
  id : String
  name : String
  description : String
  initial_variables : List (String × JSValue)
  expected_outputs : List (String × JSValue)
  expected_status : String
  timeout_seconds : Nat
  enabled : Bool
deriving DecidableEq, Repr

/-- The two fields of the simulation response that `validateTestResult`
reads: `status` and `variables` (the latter is rendered `variableValues`
because `variables` is reserved in Lean). -/
structure SimulationOutcome where
  status : String
  variableValues : List (String × JSValue)
deriving DecidableEq, Repr

/-- The expected-outputs loop of `validateTestResult`
(src/unnamed/part_002, lines 215-220): for each entry, compare the stored
variable against the expected value with strict equality and return false
on the first mismatch. -/
def checkOutputs : List (String × JSValue) → List (String × JSValue) → Bool
  | [], _ => true
  | (k, v) :: rest, vars =>
    if strictEq (lookupVar vars k) v then checkOutputs rest vars else false

/-- `validateTestResult(testCase, simulationResult)` of the testing panel
(src/unnamed/part_002, lines 208-223): fail when the status differs, then
check each expected output with strict equality. -/
def validateTestResult (tc : TestCase) (sr : SimulationOutcome) : Bool :=
  if tc.expected_status != sr.status then false
  else checkOutputs tc.expected_outputs sr.variableValues

theorem checkOutputs_eq_true_iff (eo vars : List (String × JSValue)) :
    checkOutputs eo vars = true ↔
      ∀ kv ∈ eo, strictEq (lookupVar vars kv.1) kv.2 = true := by
  induction eo with
  | nil => simp [checkOutputs]
  | cons kv rest ih =>
    obtain ⟨k, v⟩ := kv
    by_cases h : strictEq (lookupVar vars k) v = true
    · simp [checkOutputs, h, ih]
    · simp only [checkOutputs, if_neg h]
      constructor
      · intro hfalse
        exact absurd hfalse (by simp)
      · intro hall
        exact absurd (hall (k, v) (List.mem_cons_self _ _)) h

/-- Claim C9: `validateTestResult` succeeds iff the expected status equals
the simulation status and every listed expected output is strictly equal
to the stored variable — a shallow subset match (variables not listed are
ignored because only the expected entries are quantified), with objects
compared by reference only, never by structural content. -/
theorem validateTestResult_shallow_strict :
    (∀ (tc : TestCase) (sr : SimulationOutcome),
       validateTestResult tc sr = true ↔
         (tc.expected_status = sr.status ∧
          ∀ kv ∈ tc.expected_outputs,
            strictEq (lookupVar sr.variableValues kv.1) kv.2 = true)) ∧
    (∀ (r1 r2 : Nat) (f1 f2 : List (String × String)),
       strictEq (JSValue.obj r1 f1) (JSValue.obj r2 f2) = true ↔ r1 = r2) := by
  constructor
  · intro tc sr
    unfold validateTestResult
    by_cases h : tc.expected_status = sr.status
    · simp [h, checkOutputs_eq_true_iff]
    · simp [h, bne_iff_ne]
  · intro r1 r2 f1 f2
    simp [strictEq]

/-- Demonstration test case: one expected output `a = "1"`, expected
status completed. -/
def tcDemo : TestCase where
  id := "t1"
  name := "demo"
  description := ""
  initial_variables := []
  expected_outputs := [("a", JSValue.prim "1")]
  expected_status := "completed"
  timeout_seconds := 30
  enabled := true

/-- Demonstration simulation outcome: completed, with the expected
variable plus an extra variable not listed in the expectations. -/
def srDemo : SimulationOutcome where
  status := "completed"
  variableValues := [("a", JSValue.prim "1"), ("b", JSValue.prim "2")]

/-- Witness for C9: the characterization applied to a concrete test case
and outcome (the extra variable `b` is ignored). -/
theorem validateTestResult_shallow_strict_witness :
    validateTestResult tcDemo srDemo = true :=
  (validateTestResult_shallow_strict.1 tcDemo srDemo).mpr (by decide)

/- The remaining components are the execution engine proper, which is not
present in the source tree (only its UI callers and the SDK types are);
their definitions below are modelled from the specification text. -/

/-- Modelled from the spec: the explicit failure of a Variable Store read
of an undeclared name, `get(name) -> value or NotFoundError`
(spec section 4.1). -/
inductive StoreError where
  | notFound (name : String)
deriving DecidableEq, Repr

/-- A run-scoped Variable Store: a mapping from name to dynamically typed
value (spec section 3). -/
abbrev VariableStore := List (String × JSValue)

/-- Modelled from the spec: `get(name)` returns the stored value or fails
explicitly with NotFoundError, never defaulting (spec sections 3, 4.1). -/
def storeGet (s : VariableStore) (name : String) : Except StoreError JSValue :=
  match s.lookup name with
  | some v => Except.ok v
  | none => Except.error (StoreError.notFound name)

/-- Modelled from the spec: `set(name, value)` is append-or-overwrite —
any previous binding of the name is replaced, so keys stay unique within
a run (spec section 3). -/
def storeSet (s : VariableStore) (name : String) (v : JSValue) : VariableStore :=
  s.filter (fun kv => kv.1 != name) ++ [(name, v)]

theorem storeSet_lookup_self (s : VariableStore) (name : String) (v : JSValue) :
    (storeSet s name v).lookup name = some v := by
  unfold storeSet
  induction s with
  | nil => simp [List.lookup]
  | cons kv rest ih =>
    obtain ⟨k, w⟩ := kv
    by_cases h : k = name
    · simp [List.filter, h, ih]
    · have hne : (k != name) = true := by simp [bne_iff_ne, h]
      simp only [List.filter, hne, List.cons_append, List.lookup]
      have : (name == k) = false := by simp [Ne.symm h]
      simp [this, ih]

theorem storeSet_keys_nodup (s : VariableStore) (name : String) (v : JSValue)
    (h : (s.map Prod.fst).Nodup) : ((storeSet s name v).map Prod.fst).Nodup := by
  unfold storeSet
  rw [List.map_append, List.nodup_append]
  refine ⟨?_, by simp, ?_⟩
  · exact h.sublist (List.Sublist.map _ (List.filter_sublist s))
  · intro a ha hb
    simp only [List.map_cons, List.map_nil, List.mem_singleton] at hb
    subst hb
    obtain ⟨kv, hkv, hfst⟩ := List.mem_map.mp ha
    have := List.of_mem_filter hkv
    simp [bne_iff_ne, hfst] at this

/-- Claim C7: a Variable Store read returns the stored value when the name
is declared and fails explicitly with NotFoundError when it is not;
`set` is append-or-overwrite — the written value is subsequently read
back, and unique keys are preserved. -/
theorem variable_store_contract :
    (∀ (s : VariableStore) (name : String) (w : JSValue),
       s.lookup name = some w → storeGet s name = Except.ok w) ∧
    (∀ (s : VariableStore) (name : String),
       s.lookup name = none → storeGet s name = Except.error (StoreError.notFound name)) ∧
    (∀ (s : VariableStore) (name : String) (v : JSValue),
       storeGet (storeSet s name v) name = Except.ok v) ∧
    (∀ (s : VariableStore) (name : String) (v : JSValue),
       (s.map Prod.fst).Nodup → ((storeSet s name v).map Prod.fst).Nodup) := by
  refine ⟨fun s name w h => ?_, fun s name h => ?_, fun s name v => ?_,
    fun s name v h => storeSet_keys_nodup s name v h⟩
  · unfold storeGet
    rw [h]
  · unfold storeGet
    rw [h]
  · unfold storeGet
    rw [storeSet_lookup_self]

/-- Witness for C7: the contract evaluated on a one-entry store — a
declared read succeeds, an undeclared read fails with NotFoundError, and
an overwrite keeps the keys unique. -/
theorem variable_store_contract_witness :
    storeGet [("x", JSValue.prim "1")] "x" = Except.ok (JSValue.prim "1") ∧
    storeGet [("x", JSValue.prim "1")] "y" = Except.error (StoreError.notFound "y") ∧
    (((storeSet [("x", JSValue.prim "1")] "x" (JSValue.prim "2")).map Prod.fst).Nodup) :=
  ⟨variable_store_contract.1 [("x", JSValue.prim "1")] "x" (JSValue.prim "1") (by decide),
   variable_store_contract.2.1 [("x", JSValue.prim "1")] "y" (by decide),
   variable_store_contract.2.2.2 [("x", JSValue.prim "1")] "x" (JSValue.prim "2") (by decide)⟩

/-- Modelled from the spec: a persisted StepResult record (spec section 3):
step id, status, attempt count, inputs and outputs snapshots, error kind
and message, start and end timestamps, duration. -/
structure StepResult where
  stepId : String
  status : String
  attempt : Nat
  inputs : List (String × JSValue)
  outputs : List (String × JSValue)
  error : Option (String × String)
  startedAt : Nat
  endedAt : Nat
  durationMs : Nat
deriving DecidableEq, Repr

/-- Modelled from the spec: `appendStepResult(runId, StepResult)` under
at-least-once delivery, idempotent by run id + step id + attempt number
(spec section 6): a result whose key is already stored is not appended
again. -/
def appendStepResult (store : List (String × StepResult)) (runId : String)
    (r : StepResult) : List (String × StepResult) :=
  if store.any (fun e => e.1 == runId && e.2.stepId == r.stepId && e.2.attempt == r.attempt)
  then store
  else store ++ [(runId, r)]

/-- Claim C6: replaying `appendStepResult` with the same
(runId, stepId, attempt) key leaves the stored StepResult set unchanged —
applying it twice equals applying it once, so no duplicate is created. -/
theorem appendStepResult_idempotent :
    ∀ (store : List (String × StepResult)) (runId : String) (r : StepResult),
      appendStepResult (appendStepResult store runId r) runId r =
        appendStepResult store runId r := by
  intro store runId r
  unfold appendStepResult
  by_cases h : store.any
      (fun e => e.1 == runId && e.2.stepId == r.stepId && e.2.attempt == r.attempt) = true
  · rw [if_pos h, if_pos h]
  · simp only [if_neg h]
    have h2 : (store ++ [(runId, r)]).any
        (fun e => e.1 == runId && e.2.stepId == r.stepId && e.2.attempt == r.attempt) = true := by
      simp [List.any_append]
    rw [if_pos h2]

/-- Modelled from the spec: a RetryPolicy (spec section 3): max attempts,
base delay, backoff multiplier, jitter flag, retryable error kinds. -/
structure RetryPolicy where
  maxAttempts : Nat
  baseDelayMs : Nat
  multiplier : Nat
  jitter : Bool
  retryableKinds : List String
deriving DecidableEq, Repr

/-- Modelled from the spec: `nextDelay(attempt, policy)` (spec section
4.4): Delay = base * multiplier ^ (attempt - 1). -/
def nextDelay (attempt : Nat) (p : RetryPolicy) : Nat :=
  p.baseDelayMs * p.multiplier ^ (attempt - 1)

/-- Modelled from the spec: the jittered delay adds a uniform random
factor drawn from [0, delay]; the draw is passed explicitly so the
function stays deterministic. -/
def nextDelayJittered (attempt : Nat) (p : RetryPolicy) (draw : Nat) : Nat :=
  nextDelay attempt p + draw

/-- The policy of the spec's worked example: base delay 100ms, backoff
multiplier 2, three attempts, no jitter. -/
def retryPolicy100 : RetryPolicy where
  maxAttempts := 3
  baseDelayMs := 100
  multiplier := 2
  jitter := false
  retryableKinds := []

/-- Claim C4: the unjittered delay for attempt n is base * multiplier ^
(n - 1); any jittered delay with a draw in [0, delay] lies in
[delay, 2 * delay]; and for base 100ms and multiplier 2 the delays of
attempts 1..3 are exactly 100ms, 200ms, 400ms. -/
theorem nextDelay_exponential :
    (∀ (p : RetryPolicy) (n : Nat), 1 ≤ n →
       nextDelay n p = p.baseDelayMs * p.multiplier ^ (n - 1)) ∧
    (∀ (p : RetryPolicy) (n draw : Nat), draw ≤ nextDelay n p →
       nextDelay n p ≤ nextDelayJittered n p draw ∧
       nextDelayJittered n p draw ≤ 2 * nextDelay n p) ∧
    nextDelay 1 retryPolicy100 = 100 ∧
    nextDelay 2 retryPolicy100 = 200 ∧
    nextDelay 3 retryPolicy100 = 400 := by
  refine ⟨fun p n _ => rfl, fun p n draw h => ?_, by decide, by decide, by decide⟩
  unfold nextDelayJittered
  omega

/-- Witness for C4: the delay formula and the jitter bounds applied to the
worked-example policy at attempt 3 with a concrete draw of 150ms. -/
theorem nextDelay_exponential_witness :
    nextDelay 3 retryPolicy100 = retryPolicy100.baseDelayMs * retryPolicy100.multiplier ^ (3 - 1) ∧
    nextDelayJittered 3 retryPolicy100 150 ≤ 2 * nextDelay 3 retryPolicy100 :=
  ⟨nextDelay_exponential.1 retryPolicy100 3 (by decide),
   (nextDelay_exponential.2.1 retryPolicy100 3 150 (by decide)).2⟩

/-- Modelled from the spec: a branch of a condition step — a target edge
guarded by a boolean expression evaluated over the Variable Store
(spec section 4.3, condition). -/
structure ConditionBranch where
  target : String
  test : VariableStore → Bool

/-- Modelled from the spec: the error of a condition step with no matching
branch and no else branch (spec sections 4.3, 7). -/
inductive ConditionError where
  | noMatch
deriving DecidableEq, Repr

/-- The mark a condition step leaves on each of its branches: the branch
that was taken, a matching branch skipped because an earlier branch won,
or a branch whose guard did not match. -/
inductive BranchMark where
  | taken
  | skipped
  | notMatched
deriving DecidableEq, Repr

/-- Modelled from the spec: branch selection of a condition step — the
first branch, in declaration order, whose guard matches (spec section
4.3: ties broken by declaration order, first matching branch wins). -/
def condChoose (bs : List ConditionBranch) (st : VariableStore) : Option String :=
  (bs.find? (fun b => b.test st)).map (fun b => b.target)

/-- Marking pass over the declared branches; the flag records whether an
earlier branch already won, in which case a later matching branch is
marked skipped. -/
def condMarksAux (alreadyTaken : Bool) : List ConditionBranch → VariableStore → List BranchMark
  | [], _ => []
  | b :: rest, st =>
    if b.test st then
      (if alreadyTaken then BranchMark.skipped else BranchMark.taken)
        :: condMarksAux true rest st
    else
      BranchMark.notMatched :: condMarksAux alreadyTaken rest st

/-- Modelled from the spec: the per-branch marks of one condition-step
evaluation (spec section 8: the first declared matching branch is taken,
the second matching branch is marked skipped). -/
def condMarks (bs : List ConditionBranch) (st : VariableStore) : List BranchMark :=
  condMarksAux false bs st

/-- Modelled from the spec: evaluating a condition step — exactly one
outgoing edge results: the first matching branch, else the declared else
edge, else a ConditionError (spec section 4.3). -/
def evalCondition (bs : List ConditionBranch) (elseTarget : Option String)
    (st : VariableStore) : Except ConditionError String :=
  match condChoose bs st with
  | some t => Except.ok t
  | none =>
    match elseTarget with
    | some t => Except.ok t
    | none => Except.error ConditionError.noMatch

theorem condChoose_prefix_all_false (st : VariableStore) :
    ∀ (pre rest : List ConditionBranch), (∀ b ∈ pre, b.test st = false) →
      condChoose (pre ++ rest) st = condChoose rest st := by
  intro pre
  induction pre with
  | nil => intro rest _; rfl
  | cons b pre ih =>
    intro rest hpre
    have hb : b.test st = false := hpre b (List.mem_cons_self _ _)
    have hrest : ∀ x ∈ pre, x.test st = false :=
      fun x hx => hpre x (List.mem_cons_of_mem _ hx)
    have step : condChoose ((b :: pre) ++ rest) st = condChoose (pre ++ rest) st := by
      simp [condChoose, List.find?_cons, hb]
    rw [step]
    exact ih rest hrest

theorem condMarksAux_prefix_all_false (st : VariableStore) (f : Bool) :
    ∀ (pre rest : List ConditionBranch), (∀ b ∈ pre, b.test st = false) →
      condMarksAux f (pre ++ rest) st =
        List.replicate pre.length BranchMark.notMatched ++ condMarksAux f rest st := by
  intro pre
  induction pre with
  | nil => intro rest _; simp
  | cons b pre ih =>
    intro rest hpre
    have hb : b.test st = false := hpre b (List.mem_cons_self _ _)
    have hrest : ∀ x ∈ pre, x.test st = false :=
      fun x hx => hpre x (List.mem_cons_of_mem _ hx)
    have step : condMarksAux f ((b :: pre) ++ rest) st =
        BranchMark.notMatched :: condMarksAux f (pre ++ rest) st := by
      simp [condMarksAux, hb]
    rw [step, ih rest hrest]
    simp [List.replicate_succ]

theorem condMarksAux_true_skips (st : VariableStore) :
    ∀ (bs : List ConditionBranch) (k : Nat) (b : ConditionBranch),
      bs.get? k = some b → b.test st = true →
      (condMarksAux true bs st).get? k = some BranchMark.skipped := by
  intro bs
  induction bs with
  | nil => intro k b h _; simp [List.get?] at h
  | cons hd tl ih =>
    intro k b h hb
    cases k with
    | zero =>
      simp only [List.get?] at h
      cases h
      simp [condMarksAux, hb, List.get?]
    | succ k =>
      simp only [List.get?] at h
      by_cases hhd : hd.test st = true
      · simp only [condMarksAux, hhd, if_true, List.get?]
        exact ih k b h hb
      · simp only [condMarksAux, hhd, Bool.false_eq_true, if_false, List.get?]
        exact ih k b h hb

theorem condMarksAux_true_no_taken (st : VariableStore) :
    ∀ bs : List ConditionBranch, BranchMark.taken ∉ condMarksAux true bs st := by
  intro bs
  induction bs with
  | nil => simp [condMarksAux]
  | cons b tl ih =>
    by_cases hb : b.test st = true <;> simp [condMarksAux, hb, ih]

/-- Claim C5: a condition step takes exactly one outgoing edge — at most
one branch is ever marked taken; when an all-false prefix is followed by a
matching branch, that first matching branch wins (in declaration order)
and every later matching branch is marked skipped; and when no branch
matches and no else edge is declared the step fails with ConditionError. -/
theorem condition_step_semantics :
    (∀ (pre rest : List ConditionBranch) (b1 : ConditionBranch) (et : Option String)
       (st : VariableStore),
       (∀ b ∈ pre, b.test st = false) → b1.test st = true →
       evalCondition (pre ++ b1 :: rest) et st = Except.ok b1.target ∧
       (condMarks (pre ++ b1 :: rest) st).get? pre.length = some BranchMark.taken ∧
       (∀ (mid post : List ConditionBranch) (b2 : ConditionBranch),
          rest = mid ++ b2 :: post → b2.test st = true →
          (condMarks (pre ++ b1 :: rest) st).get? (pre.length + 1 + mid.length) =
            some BranchMark.skipped)) ∧
    (∀ (bs : List ConditionBranch) (st : VariableStore),
       (∀ b ∈ bs, b.test st = false) →
       evalCondition bs none st = Except.error ConditionError.noMatch) ∧
    (∀ (bs : List ConditionBranch) (st : VariableStore),
       (condMarks bs st).count BranchMark.taken ≤ 1) := by
  refine ⟨fun pre rest b1 et st hpre hb1 => ?_, fun bs st hall => ?_, fun bs st => ?_⟩
  · have hchoose : condChoose (pre ++ b1 :: rest) st = some b1.target := by
      rw [condChoose_prefix_all_false st pre _ hpre]
      have hfind : List.find? (fun b => b.test st) (b1 :: rest) = some b1 := by
        simp [List.find?_cons, hb1]
      simp [condChoose, hfind]
    have hm : condMarks (pre ++ b1 :: rest) st =
        List.replicate pre.length BranchMark.notMatched ++
          (BranchMark.taken :: condMarksAux true rest st) := by
      unfold condMarks
      rw [condMarksAux_prefix_all_false st false pre _ hpre]
      simp [condMarksAux, hb1]
    refine ⟨?_, ?_, ?_⟩
    · unfold evalCondition
      rw [hchoose]
    · rw [hm, List.get?_append_right (by simp)]
      simp [List.get?]
    · intro mid post b2 hrest hb2
      rw [hm, List.get?_append_right (by simp; omega)]
      have hidx : pre.length + 1 + mid.length -
          (List.replicate pre.length BranchMark.notMatched).length = mid.length + 1 := by
        simp; omega
      rw [hidx]
      simp only [List.get?]
      apply condMarksAux_true_skips st rest mid.length b2 _ hb2
      rw [hrest, List.get?_append_right (Nat.le_refl _)]
      simp [List.get?]
  · have hnone : condChoose bs st = none := by
      unfold condChoose
      rw [List.find?_eq_none.mpr (fun b hb => by simp [hall b hb])]
      rfl
    unfold evalCondition
    rw [hnone]
  · unfold condMarks
    induction bs with
    | nil => simp [condMarksAux]
    | cons b tl ih =>
      by_cases hb : b.test st = true
      · simp only [condMarksAux, hb, if_true, List.count_cons]
        have : (condMarksAux true tl st).count BranchMark.taken = 0 :=
          List.count_eq_zero.mpr (condMarksAux_true_no_taken st tl)
        simp [this]
      · simp only [condMarksAux, hb, Bool.false_eq_true, if_false, List.count_cons]
        simpa using ih

/-- A branch whose guard never matches, targeting edge no. -/
def condB0 : ConditionBranch where
  target := "no"
  test := fun _ => false

/-- A branch whose guard always matches, targeting edge yes. -/
def condB1 : ConditionBranch where
  target := "yes"
  test := fun _ => true

/-- A second always-matching branch, declared after condB1. -/
def condB2 : ConditionBranch where
  target := "also"
  test := fun _ => true

/-- Witness for C5: on a concrete three-branch condition step where the
second and third branches both match, the step takes the second branch
and marks the third skipped. -/
theorem condition_step_semantics_witness :
    evalCondition ([condB0] ++ condB1 :: [condB2]) none [] = Except.ok "yes" ∧
    (condMarks ([condB0] ++ condB1 :: [condB2]) []).get? 2 = some BranchMark.skipped :=
  ⟨(condition_step_semantics.1 [condB0] [condB2] condB1 none []
      (fun b hb => by simp only [List.mem_singleton] at hb; subst hb; rfl) rfl).1,
   (condition_step_semantics.1 [condB0] [condB2] condB1 none []
      (fun b hb => by simp only [List.mem_singleton] at hb; subst hb; rfl) rfl).2.2
     [] [] condB2 rfl rfl⟩

/-- Modelled from the spec: the run statuses of the engine state machine
(spec section 4.5), including the suspension status waiting and the
post-failure statuses compensating and dead_lettered. -/
inductive RunPhase where
  | pending
  | running
  | waiting
  | completed
  | failed
  | cancelled
  | compensating
  | deadLettered
deriving DecidableEq, Repr

/-- Modelled from the spec: the workflow failure policy applied when a
step exhausts its retries (spec sections 4.4, 4.5): halt the run,
compensate then dead-letter, or dead-letter directly. -/
inductive FailurePolicy where
  | halt
  | compensate
  | deadLetter
deriving DecidableEq, Repr

/-- Modelled from the spec: a workflow definition as the engine walks it
(spec sections 3, 4.5).  Steps are indexed 0 .. numSteps-1 in topological
order (raw graph cycles are rejected at validation time), the single
entry is index 0, and a terminal is reached when the index passes
numSteps.  Each step carries its successor edge, a suspension flag
(webhook / delay / approval), a bounded retry budget, and an outcome
oracle fixing whether a given attempt succeeds (connector outputs held
constant). -/
structure WorkflowDef where
  numSteps : Nat
  next : Nat → Nat
  suspends : Nat → Bool
  maxAttempts : Nat → Nat
  succeedsAt : Nat → Nat → Bool
  failurePolicy : FailurePolicy

/-- Modelled from the spec: the run record owned by the state machine —
status, current step index, attempt number at that step, and whether the
current step's suspension has already been resumed. -/
structure RunState where
  phase : RunPhase
  idx : Nat
  attempt : Nat
  resumed : Bool
deriving DecidableEq, Repr

/-- Whether a status is terminal for the given definition: completed,
cancelled and dead_lettered always are; failed is terminal exactly when
the failure policy is halt (otherwise compensation or dead-lettering is
still due). -/
def isTerminal (d : WorkflowDef) (s : RunState) : Bool :=
  match s.phase with
  | RunPhase.completed => true
  | RunPhase.cancelled => true
  | RunPhase.deadLettered => true
  | RunPhase.failed => d.failurePolicy == FailurePolicy.halt
  | _ => false

/-- Modelled from the spec: `triggerRun` creates the run in status
pending at the entry step, first attempt (spec sections 4.5, 6). -/
def triggerRun : RunState where
  phase := RunPhase.pending
  idx := 0
  attempt := 1
  resumed := false

/-- Modelled from the spec: one advance of the run state machine (spec
section 4.5).  pending starts running at the entry; a suspending step
moves the run to waiting once, and the external signal (advancing every
suspended step) resumes it; a successful attempt moves to the successor
step; a failed attempt retries while the budget allows, otherwise the
step fails permanently and the failure policy applies — halt leaves the
run failed, compensate walks the execution path in reverse before
dead-lettering, dead-letter moves the run record to the DLQ directly. -/
def stepRun (d : WorkflowDef) (s : RunState) : RunState :=
  match s.phase with
  | RunPhase.pending =>
    { phase := RunPhase.running, idx := 0, attempt := 1, resumed := false }
  | RunPhase.waiting => { s with phase := RunPhase.running, resumed := true }
  | RunPhase.running =>
    if s.idx < d.numSteps then
      if d.suspends s.idx && !s.resumed then { s with phase := RunPhase.waiting }
      else if d.succeedsAt s.idx s.attempt then
        { phase := RunPhase.running, idx := d.next s.idx, attempt := 1, resumed := false }
      else if s.attempt < d.maxAttempts s.idx then { s with attempt := s.attempt + 1 }
      else { s with phase := RunPhase.failed }
    else { s with phase := RunPhase.completed }
  | RunPhase.failed =>
    match d.failurePolicy with
    | FailurePolicy.halt => s
    | FailurePolicy.compensate => { s with phase := RunPhase.compensating }
    | FailurePolicy.deadLetter => { s with phase := RunPhase.deadLettered }
  | RunPhase.compensating =>
    if s.idx = 0 then { s with phase := RunPhase.deadLettered }
    else { s with idx := s.idx - 1 }
  | RunPhase.completed => s
  | RunPhase.cancelled => s
  | RunPhase.deadLettered => s

/-- The largest per-step retry budget among the first n steps (at least
1); bounds every attempt counter a bounded-retry run can reach. -/
def attemptBound (d : WorkflowDef) : Nat → Nat
  | 0 => 1
  | n + 1 => max (attemptBound d n) (d.maxAttempts n)

theorem maxAttempts_le_attemptBound (d : WorkflowDef) :
    ∀ n i, i < n → d.maxAttempts i ≤ attemptBound d n := by
  intro n
  induction n with
  | zero => intro i h; exact absurd h (Nat.not_lt_zero i)
  | succ n ih =>
    intro i h
    rcases Nat.lt_succ_iff_lt_or_eq.mp h with h' | h'
    · exact le_trans (ih i h') (le_max_left _ _)
    · subst h'
      exact le_max_right _ _

/-- The weight one unit of forward progress releases in the termination
measure: large enough to pay for a full retry budget plus the suspension
round-trip of the next step. -/
def runWeight (d : WorkflowDef) : Nat :=
  2 * attemptBound d d.numSteps + 5

/-- Termination measure for the run state machine: a weighted count of
the transitions still possible before a terminal status. -/
def measureRun (d : WorkflowDef) (s : RunState) : Nat :=
  match s.phase with
  | RunPhase.completed => 0
  | RunPhase.cancelled => 0
  | RunPhase.deadLettered => 0
  | RunPhase.failed =>
    match d.failurePolicy with
    | FailurePolicy.halt => 0
    | FailurePolicy.compensate => s.idx + 2
    | FailurePolicy.deadLetter => s.idx + 2
  | RunPhase.compensating => s.idx + 1
  | RunPhase.waiting =>
    (d.numSteps - s.idx) * runWeight d +
      2 * (attemptBound d d.numSteps + 1 - s.attempt) + 2 + s.idx + 2
  | RunPhase.running =>
    (d.numSteps - s.idx) * runWeight d +
      2 * (attemptBound d d.numSteps + 1 - s.attempt) +
      (if d.suspends s.idx && !s.resumed then 2 else 0) + 1 + s.idx + 2
  | RunPhase.pending =>
    d.numSteps * runWeight d + 2 * attemptBound d d.numSteps + 6

theorem stepRun_terminal_fixed (d : WorkflowDef) (s : RunState)
    (h : isTerminal d s = true) : stepRun d s = s := by
  obtain ⟨ph, i, a, r⟩ := s
  cases ph <;> simp_all [isTerminal, stepRun]

theorem measureRun_zero_terminal (d : WorkflowDef) (s : RunState)
    (h : measureRun d s = 0) : isTerminal d s = true := by
  obtain ⟨ph, i, a, r⟩ := s
  cases ph <;> simp_all [measureRun, isTerminal] <;>
    cases hp : d.failurePolicy <;> simp_all

theorem measureRun_decreases (d : WorkflowDef)
    (hnext : ∀ i < d.numSteps, i < d.next i ∧ d.next i ≤ d.numSteps)
    (s : RunState) (h : isTerminal d s = false) :
    measureRun d (stepRun d s) < measureRun d s := by
  obtain ⟨ph, i, a, r⟩ := s
  cases ph
  case pending =>
    simp only [stepRun, measureRun, Nat.sub_zero]
    have hsusp : (if d.suspends 0 && !false then 2 else 0) ≤ 2 := by
      cases d.suspends 0 <;> simp
    omega
  case waiting =>
    simp only [stepRun, measureRun, Bool.not_true, Bool.and_false,
      Bool.false_eq_true, if_false]
    omega
  case running =>
    by_cases hi : i < d.numSteps
    · by_cases hsus : (d.suspends i && !r) = true
      · simp only [stepRun, if_pos hi, if_pos hsus, measureRun, hsus, if_true]
        omega
      · by_cases hsucc : d.succeedsAt i a = true
        · simp only [stepRun, if_pos hi, hsus, Bool.false_eq_true, if_false,
            hsucc, if_true, measureRun]
          obtain ⟨hlt, hle⟩ := hnext i hi
          have hd1 : 1 ≤ d.next i - i := by omega
          have hmul : (d.numSteps - d.next i) * runWeight d +
              ((d.next i - i - 1) * runWeight d + runWeight d) =
              (d.numSteps - i) * runWeight d := by
            have h1 : (d.numSteps - d.next i) + ((d.next i - i - 1) + 1) =
                d.numSteps - i := by omega
            calc (d.numSteps - d.next i) * runWeight d +
                  ((d.next i - i - 1) * runWeight d + runWeight d)
                = ((d.numSteps - d.next i) + ((d.next i - i - 1) + 1)) * runWeight d := by
                  ring
              _ = (d.numSteps - i) * runWeight d := by rw [h1]
          have hqge : (d.next i - i - 1) * 1 ≤ (d.next i - i - 1) * runWeight d :=
            Nat.mul_le_mul_left _ (by unfold runWeight; omega)
          have hW : runWeight d = 2 * attemptBound d d.numSteps + 5 := rfl
          have hsusp : (if d.suspends (d.next i) && !false then 2 else 0) ≤ 2 := by
            cases d.suspends (d.next i) <;> simp
          omega
        · by_cases hretry : a < d.maxAttempts i
          · simp only [stepRun, if_pos hi, hsus, Bool.false_eq_true, if_false,
              hsucc, hretry, if_true, measureRun]
            have hA := maxAttempts_le_attemptBound d d.numSteps i hi
            omega
          · simp only [stepRun, if_pos hi, hsus, Bool.false_eq_true, if_false,
              hsucc, hretry, measureRun]
            have hWge : 1 * runWeight d ≤ (d.numSteps - i) * runWeight d :=
              Nat.mul_le_mul_right _ (by omega)
            have hW : runWeight d = 2 * attemptBound d d.numSteps + 5 := rfl
            cases hp : d.failurePolicy <;> simp only [hp] <;> omega
    · simp only [stepRun, if_neg hi, measureRun]
      omega
  case completed => simp [isTerminal] at h
  case cancelled => simp [isTerminal] at h
  case deadLettered => simp [isTerminal] at h
  case failed =>
    simp only [isTerminal] at h
    cases hp : d.failurePolicy
    · simp [hp] at h
    · simp only [stepRun, hp, measureRun]
      omega
    · simp only [stepRun, hp, measureRun]
      omega
  case compensating =>
    by_cases hz : i = 0
    · simp only [stepRun, if_pos hz, measureRun]
      omega
    · simp only [stepRun, if_neg hz, measureRun]
      omega

theorem iterate_reaches_terminal (d : WorkflowDef)
    (hnext : ∀ i < d.numSteps, i < d.next i ∧ d.next i ≤ d.numSteps) :
    ∀ (m : Nat) (s : RunState), measureRun d s ≤ m →
      isTerminal d ((stepRun d)^[m] s) = true := by
  intro m
  induction m with
  | zero =>
    intro s h
    simpa using measureRun_zero_terminal d s (Nat.le_zero.mp h)
  | succ m ih =>
    intro s h
    by_cases ht : isTerminal d s = true
    · rw [Function.iterate_fixed (stepRun_terminal_fixed d s ht) (m + 1)]
      exact ht
    · have hdec := measureRun_decreases d hnext s (by simpa using ht)
      rw [Function.iterate_succ_apply]
      exact ih (stepRun d s) (by omega)

/-- Claim C3: for a workflow definition whose step graph is a DAG walked
in topological order (every edge moves strictly forward, targets stay
within the graph) with bounded retries and with every suspension
advanced, triggering a run and repeatedly advancing the state machine
reaches a terminal status within a computable bound — the run never
stays in running forever. -/
theorem run_state_machine_terminates (d : WorkflowDef)
    (hnext : ∀ i < d.numSteps, i < d.next i ∧ d.next i ≤ d.numSteps) :
    ∃ k, k ≤ measureRun d triggerRun ∧
      isTerminal d ((stepRun d)^[k] triggerRun) = true :=
  ⟨measureRun d triggerRun, Nat.le_refl _,
   iterate_reaches_terminal d hnext (measureRun d triggerRun) triggerRun (Nat.le_refl _)⟩

/-- A concrete two-step workflow: step 0 fails its first attempt and
succeeds on the second (budget 3), step 1 suspends once (delay-style)
and then succeeds; failures would be compensated. -/
def demoDef : WorkflowDef where
  numSteps := 2
  next := fun i => i + 1
  suspends := fun i => i == 1
  maxAttempts := fun _ => 3
  succeedsAt := fun _ a => decide (2 ≤ a)
  failurePolicy := FailurePolicy.compensate

/-- Witness for C3: the termination theorem applied to the concrete
two-step workflow. -/
theorem run_state_machine_terminates_witness :
    ∃ k, k ≤ measureRun demoDef triggerRun ∧
      isTerminal demoDef ((stepRun demoDef)^[k] triggerRun) = true :=
  run_state_machine_terminates demoDef (by decide)
